import Mathlib

/-!
Verification development for the agent-council deliberation pipeline.

The Python source is shallowly embedded: dictionaries become ordered
association lists, truthiness is made explicit, external model calls
(`run_agent`) become function parameters giving each invocation outcome,
and every stateful loop becomes an accumulator-passing recursion in the
same iteration order as the source.
-/

set_option maxRecDepth 4000

namespace AgentCouncil

/-! ## Ordered association lists (Python dict semantics)

A Python dict preserves insertion order; assignment to an existing key
replaces the value in place, assignment to a fresh key appends. -/

/-- First value stored under key `k`, like Python `d.get(k)`. -/
def alistGet {κ β : Type} [DecidableEq κ] (l : List (κ × β)) (k : κ) : Option β :=
  match l with
  | [] => none
  | (k', v) :: rest => if k' = k then some v else alistGet rest k

/-- Python `d[k] = v`: replace the binding in place if present, else append. -/
def alistSet {κ β : Type} [DecidableEq κ] (l : List (κ × β)) (k : κ) (v : β) :
    List (κ × β) :=
  match l with
  | [] => [(k, v)]
  | (k', v') :: rest =>
      if k' = k then (k', v) :: rest else (k', v') :: alistSet rest k v

theorem alistGet_nil {κ β : Type} [DecidableEq κ] (k : κ) :
    alistGet ([] : List (κ × β)) k = none := rfl

theorem alistGet_alistSet_self {κ β : Type} [DecidableEq κ]
    (l : List (κ × β)) (k : κ) (v : β) :
    alistGet (alistSet l k v) k = some v := by
  induction l with
  | nil => simp [alistGet, alistSet]
  | cons hd tl ih =>
      obtain ⟨k', v'⟩ := hd
      by_cases h : k' = k
      · simp [alistGet, alistSet, h]
      · simp [alistGet, alistSet, h, ih]

theorem alistGet_alistSet_ne {κ β : Type} [DecidableEq κ]
    (l : List (κ × β)) (k k' : κ) (v : β) (hne : k ≠ k') :
    alistGet (alistSet l k v) k' = alistGet l k' := by
  induction l with
  | nil => simp [alistGet, alistSet, hne]
  | cons hd tl ih =>
      obtain ⟨k₀, v₀⟩ := hd
      by_cases h : k₀ = k
      · subst h
        simp [alistGet, alistSet, hne]
      · simp only [alistSet, if_neg h]
        by_cases h' : k₀ = k'
        · simp [alistGet, h']
        · simp [alistGet, h', ih]

/-- `alistSet` never deletes a key, and the only key it can add is `k`. -/
theorem alistGet_alistSet_isSome {κ β : Type} [DecidableEq κ]
    (l : List (κ × β)) (k k' : κ) (v : β) :
    (alistGet (alistSet l k v) k').isSome = true ↔
      (k = k' ∨ (alistGet l k').isSome = true) := by
  by_cases h : k = k'
  · subst h
    simp [alistGet_alistSet_self]
  · simp [alistGet_alistSet_ne l k k' v h, h]

/-! ## JSON-like values

The per-session state document and all review payloads are JSON values.
Numbers are modelled as integers (the scores in this system are integers;
Python booleans are kept separate but note `isinstance(True, int)` holds,
see `isNumericPy`). -/

inductive JVal : Type where
  | jNull : JVal
  | jBool : Bool → JVal
  | jNum : Int → JVal
  | jStr : String → JVal
  | jArr : List JVal → JVal
  | jObj : List (String × JVal) → JVal

open JVal

/-- Python truthiness of a value. -/
def truthy : JVal → Bool
  | jNull => false
  | jBool b => b
  | jNum n => n ≠ 0
  | jStr s => s ≠ ""
  | jArr xs => !xs.isEmpty
  | jObj fs => !fs.isEmpty

/-- Truthiness of `d.get(k)`: a missing key is `None`, hence falsy. -/
def truthyOpt : Option JVal → Bool
  | none => false
  | some v => truthy v

/-- Python `x or d`. -/
def pyOr (x d : JVal) : JVal := if truthy x then x else d

abbrev JObj := List (String × JVal)

/-- `SessionStateService._deep_merge`: walk the update dict in order; when
both the existing value and the update value are dicts, merge recursively,
otherwise overwrite (lists and scalars are replaced wholesale). -/
def deepMerge (res : JObj) (u : JObj) : JObj :=
  match u with
  | [] => res
  | (k, jObj uf) :: rest =>
      let res' :=
        match alistGet res k with
        | some (jObj bf) => alistSet res k (jObj (deepMerge bf uf))
        | _ => alistSet res k (jObj uf)
      deepMerge res' rest
  | (k, v) :: rest => deepMerge (alistSet res k v) rest
termination_by sizeOf u
decreasing_by
  all_goals simp_wf
  all_goals omega

theorem deepMerge_nil (res : JObj) : deepMerge res [] = res := by
  simp [deepMerge]

/-! ## Council runner (`core/council_runner.py`)

`run_agent` is the external model-call collaborator; it is embedded as a
per-roster-position outcome function `invoke : Nat → Except String (String × List String)`
giving either a raised error message or `(response_text, tools_used)`. -/

/-- Worker configuration: the fields the runner and reviewer consult.
Capability flags and reasoning settings only feed the external agent
builder and are absorbed into the `invoke` outcome. -/
structure AgentConf where
  name : String
  persona : String
deriving DecidableEq, Repr

/-- `CouncilRunner.make_tldr`: strip, collapse newlines, truncate at
`maxLen` with a trailing ellipsis. -/
def makeTldr (text : String) (maxLen : Nat) : String :=
  let clean := (text.trim).replace "\n" " "
  if clean.length ≤ maxLen then clean
  else ((clean.take (maxLen - 3)).trimRight) ++ "..."

/-- Python `text.split(sep, 1)[1]` when `sep` occurs in `text`, else `none`
(which in the source corresponds to the `in` test failing). -/
def splitAfterFirst (text sep : String) : Option String :=
  match text.splitOn sep with
  | [] => none
  | [_] => none
  | _ :: rest => some (String.intercalate sep rest)

/-- Python `text.split(sep, 1)[0]`. -/
def firstSegment (text sep : String) : String :=
  (text.splitOn sep).headD text

/-- TLDR extraction from `run_single_agent`: text after the first
`TLDR:` marker up to a blank line, else the `**TLDR:**` variant, else a
truncation of the whole response. -/
def extractTldr (responseText : String) : String :=
  match splitAfterFirst responseText "TLDR:" with
  | some parts => (firstSegment parts "\n\n").trim
  | none =>
      match splitAfterFirst responseText "**TLDR:**" with
      | some parts => (firstSegment parts "\n\n").trim
      | none => makeTldr responseText 240

/-- A worker result before `proposal_id` assignment (the dict built by
`run_single_agent`). -/
structure ProposalCore where
  agent_name : String
  agent_persona : String
  response : String
  tldr : String
  status : String
  tools_used : List String
deriving DecidableEq, Repr

/-- An execution result after `execute_council` assigned `proposal_id`. -/
structure Proposal extends ProposalCore where
  proposal_id : Int
deriving DecidableEq, Repr

/-- `CouncilRunner.run_single_agent`: a success returns the response with
status `success`; any raised error is caught and recorded as a result with
status `error` whose content is the error message. -/
def runSingleAgent (conf : AgentConf)
    (outcome : Except String (String × List String)) : ProposalCore :=
  match outcome with
  | .ok (text, tools) =>
      { agent_name := conf.name
        agent_persona := conf.persona
        response := text
        tldr := extractTldr text
        status := "success"
        tools_used := tools }
  | .error e =>
      { agent_name := conf.name
        agent_persona := conf.persona
        response := e
        tldr := "Execution failed."
        status := "error"
        tools_used := [] }

/-- The task list of `execute_council`: one `run_single_agent` per roster
entry, in roster order (`asyncio.gather` preserves argument order). -/
def runAll (invoke : Nat → Except String (String × List String)) :
    List AgentConf → Nat → List ProposalCore
  | [], _ => []
  | a :: rest, start => runSingleAgent a (invoke start) :: runAll invoke rest (start + 1)

/-- The `enumerate(results, start=idx)` loop stamping stable 1-based ids. -/
def assignIds : List ProposalCore → Nat → List Proposal
  | [], _ => []
  | p :: rest, idx => { toProposalCore := p, proposal_id := (idx : Int) } :: assignIds rest (idx + 1)

/-- The ordered result list produced by `execute_council` on a non-empty roster. -/
def councilResults (agents : List AgentConf)
    (invoke : Nat → Except String (String × List String)) : List Proposal :=
  assignIds (runAll invoke agents 0) 1

/-- `CouncilRunner.execute_council`: empty roster yields the error payload,
otherwise all workers run and ids are assigned in roster order. -/
def executeCouncil (agents : List AgentConf)
    (invoke : Nat → Except String (String × List String)) :
    Except String (List Proposal) :=
  if agents.isEmpty then .error "No agents found in council configuration."
  else .ok (councilResults agents invoke)

theorem runAll_length (invoke : Nat → Except String (String × List String))
    (agents : List AgentConf) (s : Nat) :
    (runAll invoke agents s).length = agents.length := by
  induction agents generalizing s with
  | nil => rfl
  | cons a rest ih => simp [runAll, ih]

theorem assignIds_length (ps : List ProposalCore) (n : Nat) :
    (assignIds ps n).length = ps.length := by
  induction ps generalizing n with
  | nil => rfl
  | cons p rest ih => simp [assignIds, ih]

theorem runAll_get? (invoke : Nat → Except String (String × List String))
    (agents : List AgentConf) (s i : Nat) :
    (runAll invoke agents s).get? i =
      (agents.get? i).map (fun a => runSingleAgent a (invoke (s + i))) := by
  induction agents generalizing s i with
  | nil => simp [runAll]
  | cons a rest ih =>
      cases i with
      | zero => simp [runAll]
      | succ j =>
          have := ih (s + 1) j
          simp only [runAll, List.get?]
          rw [this]
          have harith : s + 1 + j = s + (j + 1) := by omega
          rw [harith]

theorem assignIds_get? (ps : List ProposalCore) (n i : Nat) :
    (assignIds ps n).get? i =
      (ps.get? i).map (fun p => { toProposalCore := p, proposal_id := ((n + i : Nat) : Int) }) := by
  induction ps generalizing n i with
  | nil => simp [assignIds]
  | cons p rest ih =>
      cases i with
      | zero => simp [assignIds]
      | succ j =>
          have := ih (n + 1) j
          simp only [assignIds, List.get?]
          rw [this]
          have harith : n + 1 + j = n + (j + 1) := by omega
          rw [harith]

theorem councilResults_length (agents : List AgentConf)
    (invoke : Nat → Except String (String × List String)) :
    (councilResults agents invoke).length = agents.length := by
  simp [councilResults, assignIds_length, runAll_length]

theorem councilResults_get? (agents : List AgentConf)
    (invoke : Nat → Except String (String × List String)) (i : Nat) :
    (councilResults agents invoke).get? i =
      (agents.get? i).map
        (fun a => { toProposalCore := runSingleAgent a (invoke i),
                    proposal_id := ((1 + i : Nat) : Int) }) := by
  simp only [councilResults, assignIds_get?, runAll_get?, Option.map_map, Nat.zero_add]
  cases agents.get? i <;> simp [Function.comp, Nat.add_comm]

/-- Every id stamped from start value `n` is at least `n`. -/
theorem assignIds_pid_ge (ps : List ProposalCore) (n : Nat) :
    ∀ q ∈ assignIds ps n, (n : Int) ≤ q.proposal_id := by
  induction ps generalizing n with
  | nil => simp [assignIds]
  | cons p rest ih =>
      intro q hq
      simp only [assignIds, List.mem_cons] at hq
      rcases hq with rfl | hq
      · simp
      · have := ih (n + 1) q hq
        push_cast at this ⊢
        omega

/-- The stamped `proposal_id`s are pairwise distinct. -/
theorem assignIds_pid_nodup (ps : List ProposalCore) (n : Nat) :
    ((assignIds ps n).map (fun p => p.proposal_id)).Nodup := by
  induction ps generalizing n with
  | nil => simp [assignIds]
  | cons p rest ih =>
      simp only [assignIds, List.map_cons, List.nodup_cons]
      refine ⟨?_, ih (n + 1)⟩
      intro hmem
      rcases List.mem_map.mp hmem with ⟨q, hq, hpid⟩
      have := assignIds_pid_ge rest (n + 1) q hq
      rw [hpid] at this
      push_cast at this
      omega

/-! ## Peer review orchestration (`core/council_reviewer.py`) -/

/-- `agents_map = {a['name']: a for a in ...}` followed by `.get(name)`:
a dict comprehension keeps the last binding for duplicate names. -/
def mapGet (agents : List AgentConf) (n : String) : Option AgentConf :=
  agents.foldl (fun acc a => if a.name = n then some a else acc) none

/-- One entry of the reviewer task list built by `run_peer_review`:
the reviewer configuration and the other workers' results handed to it. -/
structure ReviewTask where
  reviewer : AgentConf
  others : List Proposal
deriving DecidableEq, Repr

/-- The `for result in execution_results` loop of `run_peer_review`:
`all` stays the full execution result list that `others` is filtered from. -/
def reviewTasksAux (agents : List AgentConf) (all : List Proposal) :
    List Proposal → List ReviewTask
  | [] => []
  | r :: rest =>
      let tail := reviewTasksAux agents all rest
      match mapGet agents r.agent_name with
      | none => tail
      | some conf =>
          let others := all.filter (fun x => x.agent_name ≠ r.agent_name)
          if others.isEmpty then tail else ⟨conf, others⟩ :: tail

/-- `CouncilReviewer.run_peer_review`: the reviewer tasks it constructs.
The subsequent critique calls are external; the claims under study concern
which tasks exist and what inputs they receive. -/
def reviewTasks (agents : List AgentConf) (results : List Proposal) : List ReviewTask :=
  reviewTasksAux agents results results

theorem mapGet_name (agents : List AgentConf) (n : String) (c : AgentConf)
    (h : mapGet agents n = some c) : c.name = n := by
  suffices hgen : ∀ acc : Option AgentConf, (∀ c₀, acc = some c₀ → c₀.name = n) →
      ∀ c₀, agents.foldl (fun acc a => if a.name = n then some a else acc) acc = some c₀ →
        c₀.name = n by
    exact hgen none (by intro c₀ h₀; cases h₀) c h
  clear h
  induction agents with
  | nil => intro acc hacc c₀ h₀; exact hacc c₀ h₀
  | cons a rest ih =>
      intro acc hacc c₀ h₀
      simp only [List.foldl_cons] at h₀
      by_cases hn : a.name = n
      · exact ih (some a) (by intro c₁ h₁; cases h₁; exact hn) c₀ (by simpa [hn] using h₀)
      · exact ih acc hacc c₀ (by simpa [hn] using h₀)

/-- Shape of each constructed reviewer task: it is anchored at some result
`r`, the reviewer config is the map entry for the name of `r`, and the
input set is everything in the full result list not authored under that name. -/
theorem reviewTasksAux_mem (agents : List AgentConf) (all : List Proposal)
    (l : List Proposal) (t : ReviewTask) (ht : t ∈ reviewTasksAux agents all l) :
    ∃ r ∈ l, mapGet agents r.agent_name = some t.reviewer ∧
      t.others = all.filter (fun x => x.agent_name ≠ r.agent_name) := by
  induction l with
  | nil => simp [reviewTasksAux] at ht
  | cons r rest ih =>
      simp only [reviewTasksAux] at ht
      cases hmap : mapGet agents r.agent_name with
      | none =>
          simp only [hmap] at ht
          rcases ih ht with ⟨r', hr', h1, h2⟩
          exact ⟨r', List.mem_cons_of_mem r hr', h1, h2⟩
      | some conf =>
          simp only [hmap] at ht
          by_cases hemp : (all.filter (fun x => x.agent_name ≠ r.agent_name)).isEmpty = true
          · rw [if_pos hemp] at ht
            rcases ih ht with ⟨r', hr', h1, h2⟩
            exact ⟨r', List.mem_cons_of_mem r hr', h1, h2⟩
          · rw [if_neg hemp] at ht
            rcases List.mem_cons.mp ht with rfl | ht'
            · exact ⟨r, List.mem_cons_self r rest, hmap, rfl⟩
            · rcases ih ht' with ⟨r', hr', h1, h2⟩
              exact ⟨r', List.mem_cons_of_mem r hr', h1, h2⟩

/-! ## Claims C1, C2, C3 -/

/-- C1: for every roster of size N ≥ 1, `execute_council` returns exactly
N proposal records whose `proposal_id` is the 1-based roster position,
even when invocations raise; a failing worker is recorded with status
`error` and its error message as content, and the results of the other
workers do not depend on that worker's outcome. -/
theorem execute_council_fanout (agents : List AgentConf)
    (invoke : Nat → Except String (String × List String))
    (h : agents ≠ []) :
    ∃ ps, executeCouncil agents invoke = .ok ps ∧
      ps.length = agents.length ∧
      (∀ i, i < agents.length →
        (ps.get? i).map Proposal.proposal_id = some ((i : Int) + 1)) ∧
      (∀ i e, invoke i = .error e →
        ∀ p, ps.get? i = some p → p.status = "error" ∧ p.response = e) ∧
      (∀ invoke' : Nat → Except String (String × List String), ∀ j : Nat,
        (∀ k, k ≠ j → invoke' k = invoke k) →
        ∀ i, i ≠ j → (councilResults agents invoke').get? i = ps.get? i) := by
  refine ⟨councilResults agents invoke, ?_, councilResults_length agents invoke, ?_, ?_, ?_⟩
  · have hne : agents.isEmpty = false := by
      cases agents with
      | nil => exact absurd rfl h
      | cons a rest => rfl
    simp [executeCouncil, hne]
  · intro i hi
    rw [councilResults_get?]
    have : agents.get? i = some (agents.get ⟨i, hi⟩) := by
      rw [List.get?_eq_getElem?, List.getElem?_eq_getElem hi]
      rfl
    rw [this]
    simp only [Option.map_some']
    congr 1
    push_cast
    omega
  · intro i e herr p hp
    rw [councilResults_get?] at hp
    cases hget : agents.get? i with
    | none => rw [hget] at hp; cases hp
    | some a =>
        rw [hget] at hp
        simp only [Option.map_some', Option.some_inj] at hp
        subst hp
        constructor
        · simp [runSingleAgent, herr]
        · simp [runSingleAgent, herr]
  · intro invoke' j hagree i hij
    rw [councilResults_get?, councilResults_get?]
    rw [hagree i hij]

/-- Concrete 2-agent roster with one failing invocation. -/
def wInvoke1 : Nat → Except String (String × List String) :=
  fun k => if k = 1 then .error "model call failed" else .ok ("TLDR: fine\n\nFull answer.", [])

/-- Closed instantiation of `execute_council_fanout`. -/
theorem execute_council_fanout_witness :
    (([⟨"Alpha", "pa"⟩, ⟨"Beta", "pb"⟩] : List AgentConf) ≠ []) ∧
    (∃ ps, executeCouncil [⟨"Alpha", "pa"⟩, ⟨"Beta", "pb"⟩] wInvoke1 = .ok ps ∧
      ps.length = ([⟨"Alpha", "pa"⟩, ⟨"Beta", "pb"⟩] : List AgentConf).length ∧
      (∀ i, i < ([⟨"Alpha", "pa"⟩, ⟨"Beta", "pb"⟩] : List AgentConf).length →
        (ps.get? i).map Proposal.proposal_id = some ((i : Int) + 1)) ∧
      (∀ i e, wInvoke1 i = .error e →
        ∀ p, ps.get? i = some p → p.status = "error" ∧ p.response = e) ∧
      (∀ invoke' : Nat → Except String (String × List String), ∀ j : Nat,
        (∀ k, k ≠ j → invoke' k = wInvoke1 k) →
        ∀ i, i ≠ j →
          (councilResults [⟨"Alpha", "pa"⟩, ⟨"Beta", "pb"⟩] invoke').get? i = ps.get? i)) :=
  ⟨by simp, execute_council_fanout _ wInvoke1 (by simp)⟩

/-- C2: on an execution result set with unique worker names, every
reviewer task excludes the reviewer's own proposal: no target carries the
reviewer's name, and the reviewer's own `proposal_id` is never a target. -/
theorem peer_review_excludes_self (cfg agents : List AgentConf)
    (invoke : Nat → Except String (String × List String)) (ps : List Proposal)
    (hexec : executeCouncil agents invoke = .ok ps)
    (hnames : (ps.map (fun p => p.agent_name)).Nodup) :
    ∀ t ∈ reviewTasks cfg ps,
      (∀ p ∈ t.others, p.agent_name ≠ t.reviewer.name) ∧
      (∀ r ∈ ps, r.agent_name = t.reviewer.name →
        r.proposal_id ∉ t.others.map (fun p => p.proposal_id)) := by
  have hps : ps = councilResults agents invoke := by
    by_cases hne : agents.isEmpty
    · simp [executeCouncil, hne] at hexec
    · simp only [executeCouncil, hne, Bool.false_eq_true, if_false] at hexec
      exact (Except.ok.injEq _ _).mp hexec.symm ▸ rfl
  have hpids : (ps.map (fun p => p.proposal_id)).Nodup := by
    rw [hps]
    exact assignIds_pid_nodup _ 1
  intro t ht
  rcases reviewTasksAux_mem cfg ps ps t ht with ⟨r₀, hr₀, hmap, hothers⟩
  have hrevname : t.reviewer.name = r₀.agent_name := mapGet_name cfg _ _ hmap
  constructor
  · intro p hp
    rw [hothers] at hp
    have := List.of_mem_filter hp
    simp only [decide_eq_true_eq] at this
    rw [hrevname]
    exact this
  · intro r hr hrname hmem
    rcases List.mem_map.mp hmem with ⟨p, hpmem, hpid⟩
    have hpother := hpmem
    rw [hothers] at hpother
    have hpps : p ∈ ps := List.mem_of_mem_filter hpother
    have hpname : p.agent_name ≠ r₀.agent_name := by
      have := List.of_mem_filter hpother
      simpa using this
    have hpr : p = r := List.inj_on_of_nodup_map hpids hpps hr hpid
    rw [hpr] at hpname
    rw [hrname, hrevname] at hpname
    exact hpname rfl

/-- Closed instantiation of `peer_review_excludes_self` on a concrete
two-agent execution. -/
theorem peer_review_excludes_self_witness :
    (executeCouncil [⟨"Alpha", "pa"⟩, ⟨"Beta", "pb"⟩] wInvoke1 =
      .ok (councilResults [⟨"Alpha", "pa"⟩, ⟨"Beta", "pb"⟩] wInvoke1)) ∧
    ((councilResults [⟨"Alpha", "pa"⟩, ⟨"Beta", "pb"⟩] wInvoke1).map
      (fun p => p.agent_name)).Nodup ∧
    (∀ t ∈ reviewTasks [⟨"Alpha", "pa"⟩, ⟨"Beta", "pb"⟩]
        (councilResults [⟨"Alpha", "pa"⟩, ⟨"Beta", "pb"⟩] wInvoke1),
      (∀ p ∈ t.others, p.agent_name ≠ t.reviewer.name) ∧
      (∀ r ∈ councilResults [⟨"Alpha", "pa"⟩, ⟨"Beta", "pb"⟩] wInvoke1,
        r.agent_name = t.reviewer.name →
        r.proposal_id ∉ t.others.map (fun p => p.proposal_id))) :=
  ⟨by rfl, by decide,
    peer_review_excludes_self [⟨"Alpha", "pa"⟩, ⟨"Beta", "pb"⟩]
      [⟨"Alpha", "pa"⟩, ⟨"Beta", "pb"⟩] wInvoke1
      (councilResults [⟨"Alpha", "pa"⟩, ⟨"Beta", "pb"⟩] wInvoke1)
      (by rfl) (by decide)⟩

/-- Three-worker roster for the review-stage scenario. -/
def cexAgents : List AgentConf := [⟨"A", "p1"⟩, ⟨"B", "p2"⟩, ⟨"C", "p3"⟩]

/-- Invocation outcomes where exactly the second worker (roster index 1) raises. -/
def cexInvoke : Nat → Except String (String × List String) :=
  fun k => if k = 1 then .error "invocation raised" else .ok ("TLDR: short\n\nanswer", [])

/-- C3 counterexample: with 3 workers of which exactly one failed,
`run_peer_review` constructs 3 reviewer tasks, the failed worker is one of
the reviewers, and its error proposal appears among the review targets —
the claimed status filtering does not exist in the code. -/
theorem review_status_filter_cex :
    ((councilResults cexAgents cexInvoke).map (fun p => p.status)) =
      ["success", "error", "success"] ∧
    (reviewTasks cexAgents (councilResults cexAgents cexInvoke)).length = 3 ∧
    (∃ t ∈ reviewTasks cexAgents (councilResults cexAgents cexInvoke),
      t.reviewer.name = "B") ∧
    (∃ t ∈ reviewTasks cexAgents (councilResults cexAgents cexInvoke),
      ∃ p ∈ t.others, p.status = "error") := by
  decide

/-- Helper: with at least two results and pairwise distinct worker names,
every result has a companion with a different name. -/
theorem exists_other_name (ps : List Proposal)
    (hnames : (ps.map (fun p => p.agent_name)).Nodup) (hlen : 2 ≤ ps.length)
    (r : Proposal) :
    ∃ x ∈ ps, x.agent_name ≠ r.agent_name := by
  match ps, hlen with
  | a :: b :: rest, _ =>
      simp only [List.map_cons, List.nodup_cons, List.mem_cons, List.mem_map] at hnames
      have hab : a.agent_name ≠ b.agent_name := by
        intro hcontra
        exact hnames.1 (Or.inl hcontra)
      by_cases hra : a.agent_name = r.agent_name
      · exact ⟨b, by simp, by rw [← hra]; exact fun hc => hab hc.symm⟩
      · exact ⟨a, by simp, hra⟩

/-- Helper: the reviewer-task loop builds one task per iterated result as
soon as the name lookup succeeds and the filtered input set is non-empty. -/
theorem reviewTasksAux_length_of (cfg : List AgentConf) (all : List Proposal)
    (l : List Proposal)
    (h : ∀ r ∈ l, (mapGet cfg r.agent_name).isSome = true ∧
      ¬(all.filter (fun x => x.agent_name ≠ r.agent_name)).isEmpty = true) :
    (reviewTasksAux cfg all l).length = l.length := by
  induction l with
  | nil => rfl
  | cons r rest ih =>
      have hr := h r (List.mem_cons_self r rest)
      have hrest : ∀ q ∈ rest, (mapGet cfg q.agent_name).isSome = true ∧
          ¬(all.filter (fun x => x.agent_name ≠ q.agent_name)).isEmpty = true :=
        fun q hq => h q (List.mem_cons_of_mem r hq)
      cases hmap : mapGet cfg r.agent_name with
      | none => rw [hmap] at hr; simp at hr
      | some conf =>
          simp only [reviewTasksAux, hmap]
          rw [if_neg hr.2]
          simp [ih hrest]

/-- C3 amended: reviewer tasks are constructed for every worker whose name
appears in the council configuration and for which at least one other
result exists — the proposal status is never consulted. With distinct names
and a roster of at least two, every worker (failed or not) becomes a
reviewer, and every other worker's proposal, error proposals included, is
among its review targets. -/
theorem review_tasks_ignore_status (cfg : List AgentConf) (ps : List Proposal)
    (hin : ∀ r ∈ ps, (mapGet cfg r.agent_name).isSome = true)
    (hnames : (ps.map (fun p => p.agent_name)).Nodup)
    (hlen : 2 ≤ ps.length) :
    (reviewTasks cfg ps).length = ps.length ∧
    (∀ t ∈ reviewTasks cfg ps, ∀ x ∈ ps,
      x.agent_name ≠ t.reviewer.name → x ∈ t.others) := by
  constructor
  · refine reviewTasksAux_length_of cfg ps ps (fun r hr => ⟨hin r hr, ?_⟩)
    rcases exists_other_name ps hnames hlen r with ⟨x, hx, hxname⟩
    intro hempty
    rw [List.isEmpty_iff] at hempty
    have : x ∈ ps.filter (fun x => x.agent_name ≠ r.agent_name) :=
      List.mem_filter.mpr ⟨hx, by simpa using hxname⟩
    rw [hempty] at this
    cases this
  · intro t ht x hx hxname
    rcases reviewTasksAux_mem cfg ps ps t ht with ⟨r₀, _, hmap, hothers⟩
    have hrevname : t.reviewer.name = r₀.agent_name := mapGet_name cfg _ _ hmap
    rw [hothers]
    refine List.mem_filter.mpr ⟨hx, ?_⟩
    rw [hrevname] at hxname
    simpa using hxname

/-- Closed instantiation of `review_tasks_ignore_status` on the 3-worker
scenario with one failed invocation: all 3 workers review. -/
theorem review_tasks_ignore_status_witness :
    (∀ r ∈ councilResults cexAgents cexInvoke,
      (mapGet cexAgents r.agent_name).isSome = true) ∧
    ((councilResults cexAgents cexInvoke).map (fun p => p.agent_name)).Nodup ∧
    2 ≤ (councilResults cexAgents cexInvoke).length ∧
    ((reviewTasks cexAgents (councilResults cexAgents cexInvoke)).length =
      (councilResults cexAgents cexInvoke).length ∧
    (∀ t ∈ reviewTasks cexAgents (councilResults cexAgents cexInvoke),
      ∀ x ∈ councilResults cexAgents cexInvoke,
        x.agent_name ≠ t.reviewer.name → x ∈ t.others)) :=
  ⟨by decide, by decide, by decide,
    review_tasks_ignore_status cexAgents (councilResults cexAgents cexInvoke)
      (by decide) (by decide) (by decide)⟩

/-! ## Score aggregation (`web/services.py` and `agentcouncil.py`)

Both copies of `aggregate_reviews` are textually identical loops; they are
embedded once. Review payloads are JSON coming back from the model, so the
`score` and `tldr` fields are arbitrary values. -/

/-- The `proposal_id` field of one execution-result dict (`res.get("proposal_id")`). -/
structure PropRef where
  proposal_id : Option Int

/-- One `per_proposal` entry of a parsed critique: `item.get("proposal_id")`,
`item.get("score")`, `item.get("tldr")` (missing keys read as `None`/null). -/
structure PerItem where
  proposal_id : Option Int
  score : JVal
  tldr : JVal

/-- One review dict as consumed by aggregation: `rev.get("parsed")` with its
`per_proposal` list (`parsed.get("per_proposal", [])`); a falsy `parsed`
(missing, null, or an empty dict, which also has no entries) is `none`. -/
structure ReviewRec where
  parsed : Option (List PerItem)

/-- `isinstance(score, (int, float))`; Python `bool` is a subclass of `int`. -/
def isNumericPy : JVal → Bool
  | JVal.jNum _ => true
  | JVal.jBool _ => true
  | _ => false

/-- Numeric value used when summing collected scores. -/
def numVal : JVal → ℚ
  | JVal.jNum n => (n : ℚ)
  | JVal.jBool b => if b then 1 else 0
  | _ => 0

/-- One aggregation bucket `{"scores": [...], "comments": [...]}`. -/
structure Bucket where
  scores : List JVal
  comments : List JVal

abbrev AggMap := List (Int × Bucket)

/-- Body of the inner `for item in per:` loop of `aggregate_reviews`. -/
def applyItem (agg : AggMap) (item : PerItem) : AggMap :=
  match item.proposal_id with
  | none => agg
  | some pid =>
      match alistGet agg pid with
      | none => agg
      | some b =>
          let withScore :=
            if isNumericPy item.score then b.scores ++ [item.score] else b.scores
          alistSet agg pid ⟨withScore, b.comments ++ [pyOr item.tldr (jStr "")]⟩

def itemLoop (agg : AggMap) : List PerItem → AggMap
  | [] => agg
  | it :: rest => itemLoop (applyItem agg it) rest

/-- Body of the `for rev in reviews:` loop: skip a review with falsy `parsed`. -/
def applyReview (agg : AggMap) (rev : ReviewRec) : AggMap :=
  match rev.parsed with
  | none => agg
  | some items => itemLoop agg items

def reviewLoop (agg : AggMap) : List ReviewRec → AggMap
  | [] => agg
  | rev :: rest => reviewLoop (applyReview agg rev) rest

/-- Bucket-creating first loop of `aggregate_reviews`. -/
def initLoop (agg : AggMap) : List PropRef → AggMap
  | [] => agg
  | r :: rest =>
      match r.proposal_id with
      | none => initLoop agg rest
      | some pid => initLoop (alistSet agg pid ⟨[], []⟩) rest

/-- `aggregate_reviews(execution_results, reviews)`. -/
def aggregateReviews (results : List PropRef) (reviews : List ReviewRec) : AggMap :=
  reviewLoop (initLoop [] results) reviews

/-- The interactive score table cell (`agentcouncil.py`): the reported
average is the mean when scores were collected and a dash sentinel
otherwise (`f"{avg:.2f}" if scores else "—"`). -/
inductive AvgCell where
  | noData : AvgCell
  | avg : ℚ → AvgCell
deriving DecidableEq, Repr

def avgCell (scores : List JVal) : AvgCell :=
  if scores.isEmpty then AvgCell.noData
  else AvgCell.avg (((scores.map numVal).sum) / (scores.length : ℚ))

/-- All `per_proposal` entries across the parsed reviews that target `pid`,
in order of appearance. -/
def matchingItems (reviews : List ReviewRec) (pid : Int) : List PerItem :=
  reviews.flatMap (fun rev => (rev.parsed.getD []).filter (fun it => it.proposal_id = some pid))

/-- The scores a bucket is described to collect: the numeric ones, in order. -/
def specScores (reviews : List ReviewRec) (pid : Int) : List JVal :=
  ((matchingItems reviews pid).filter (fun it => isNumericPy it.score)).map
    (fun it => it.score)

/-- The comments the code collects: `tldr or ""` of every matching entry. -/
def specComments (reviews : List ReviewRec) (pid : Int) : List JVal :=
  (matchingItems reviews pid).map (fun it => pyOr it.tldr (jStr ""))

theorem applyItem_get_match (agg : AggMap) (it : PerItem) (pid : Int) (b : Bucket)
    (hb : alistGet agg pid = some b) (hit : it.proposal_id = some pid) :
    alistGet (applyItem agg it) pid =
      some ⟨b.scores ++ (if isNumericPy it.score then [it.score] else []),
            b.comments ++ [pyOr it.tldr (jStr "")]⟩ := by
  simp only [applyItem, hit, hb]
  rw [alistGet_alistSet_self]
  by_cases hnum : isNumericPy it.score
  · simp [hnum]
  · simp [hnum]

theorem applyItem_get_other (agg : AggMap) (it : PerItem) (pid : Int)
    (hit : it.proposal_id ≠ some pid) :
    alistGet (applyItem agg it) pid = alistGet agg pid := by
  cases hq : it.proposal_id with
  | none => simp [applyItem, hq]
  | some q =>
      have hqp : q ≠ pid := by
        intro hcontra
        exact hit (by rw [hq, hcontra])
      cases hget : alistGet agg q with
      | none => simp [applyItem, hq, hget]
      | some b =>
          simp only [applyItem, hq, hget]
          exact alistGet_alistSet_ne agg q pid _ hqp

theorem itemLoop_get (items : List PerItem) (agg : AggMap) (pid : Int) (b : Bucket)
    (hb : alistGet agg pid = some b) :
    alistGet (itemLoop agg items) pid =
      some ⟨b.scores ++ ((items.filter (fun it => it.proposal_id = some pid)).filter
              (fun it => isNumericPy it.score)).map (fun it => it.score),
            b.comments ++ (items.filter (fun it => it.proposal_id = some pid)).map
              (fun it => pyOr it.tldr (jStr ""))⟩ := by
  induction items generalizing agg b with
  | nil => simpa [itemLoop] using hb
  | cons it rest ih =>
      by_cases hit : it.proposal_id = some pid
      · have hstep := applyItem_get_match agg it pid b hb hit
        have := ih (applyItem agg it) _ hstep
        rw [itemLoop, this]
        by_cases hnum : isNumericPy it.score
        · simp [hit, hnum]
        · simp [hit, hnum]
      · have hstep := applyItem_get_other agg it pid hit
        have := ih (applyItem agg it) b (by rw [hstep]; exact hb)
        rw [itemLoop, this]
        simp [hit]

theorem reviewLoop_get (reviews : List ReviewRec) (agg : AggMap) (pid : Int) (b : Bucket)
    (hb : alistGet agg pid = some b) :
    alistGet (reviewLoop agg reviews) pid =
      some ⟨b.scores ++ specScores reviews pid, b.comments ++ specComments reviews pid⟩ := by
  induction reviews generalizing agg b with
  | nil => simpa [reviewLoop, specScores, specComments, matchingItems] using hb
  | cons rev rest ih =>
      cases hp : rev.parsed with
      | none =>
          have := ih agg b hb
          rw [reviewLoop, applyReview, hp, this]
          simp [specScores, specComments, matchingItems, hp]
      | some items =>
          have hstep := itemLoop_get items agg pid b hb
          have := ih (itemLoop agg items) _ hstep
          rw [reviewLoop, applyReview, hp, this]
          simp [specScores, specComments, matchingItems, hp, List.filter_filter,
            List.append_assoc]

theorem initLoop_get (l : List PropRef) (agg : AggMap) (pid : Int) :
    alistGet (initLoop agg l) pid =
      if pid ∈ l.filterMap (fun r => r.proposal_id) then some ⟨[], []⟩
      else alistGet agg pid := by
  induction l generalizing agg with
  | nil => simp [initLoop]
  | cons r rest ih =>
      cases hq : r.proposal_id with
      | none => simp [initLoop, hq, ih, List.filterMap_cons]
      | some q =>
          rw [initLoop, hq, ih]
          by_cases hmem : pid ∈ rest.filterMap (fun r => r.proposal_id)
          · simp [hmem, List.filterMap_cons, hq]
          · by_cases hpq : q = pid
            · subst hpq
              simp [hmem, List.filterMap_cons, hq, alistGet_alistSet_self]
            · rw [if_neg hmem, alistGet_alistSet_ne agg q pid _ hpq]
              simp [List.filterMap_cons, hq, hmem, Ne.symm hpq]

/-- One proposal and one parsed critique whose matching entry has a
numeric score but a missing (falsy) `tldr`. -/
def cexAggResults : List PropRef := [⟨some 1⟩]

def cexAggReviews : List ReviewRec := [⟨some [⟨some 1, jNum 4, jNull⟩]⟩]

/-- C4 counterexample: although no entry carries a non-empty summary, the
bucket's comment list is `[""]`, not `[]` — `aggregate_reviews` appends
`item.get("tldr") or ""` unconditionally instead of only when non-empty. -/
theorem aggregate_tldr_cex :
    (∀ rev ∈ cexAggReviews, ∀ it ∈ rev.parsed.getD [], truthy it.tldr = false) ∧
    alistGet (aggregateReviews cexAggResults cexAggReviews) 1 =
      some ⟨[jNum 4], [jStr ""]⟩ ∧
    ([jStr ""] : List JVal) ≠ [] := by
  refine ⟨?_, rfl, by simp⟩
  intro rev hrev it hit
  simp only [cexAggReviews, List.mem_singleton] at hrev
  subst hrev
  simp only [Option.getD_some, List.mem_singleton] at hit
  subst hit
  rfl

/-- C4 amended: `aggregate_reviews` creates one bucket per `proposal_id`
present in the proposal set; each bucket collects, over the matching parsed
entries in order of appearance, the score only when it is numeric and the
summary coerced with `or ""` — an empty or missing `tldr` is appended as
the empty string rather than skipped. The displayed average is the
arithmetic mean of the collected scores, with a dash sentinel (distinct
from a real 0) exactly when no score was collected. -/
theorem aggregate_reviews_amended (results : List PropRef) (reviews : List ReviewRec)
    (pid : Int) :
    alistGet (aggregateReviews results reviews) pid =
      (if pid ∈ results.filterMap (fun r => r.proposal_id) then
        some ⟨specScores reviews pid, specComments reviews pid⟩
      else none) ∧
    (∀ scores : List JVal, (avgCell scores = AvgCell.noData ↔ scores = [])) ∧
    (∀ scores : List JVal, scores ≠ [] →
      avgCell scores = AvgCell.avg (((scores.map numVal).sum) / (scores.length : ℚ))) := by
  refine ⟨?_, ?_, ?_⟩
  · by_cases hmem : pid ∈ results.filterMap (fun r => r.proposal_id)
    · rw [if_pos hmem]
      have hinit : alistGet (initLoop [] results) pid = some ⟨[], []⟩ := by
        rw [initLoop_get, if_pos hmem]
      have := reviewLoop_get reviews (initLoop [] results) pid _ hinit
      rw [aggregateReviews, this]
      simp
    · rw [if_neg hmem]
      have hinit : alistGet (initLoop [] results) pid = none := by
        rw [initLoop_get, if_neg hmem]
        rfl
      have hkeep : ∀ reviews' agg, alistGet agg pid = none →
          alistGet (reviewLoop agg reviews') pid = none := by
        intro reviews'
        induction reviews' with
        | nil => intro agg h; simpa [reviewLoop] using h
        | cons rev rest ih =>
            intro agg h
            rw [reviewLoop]
            refine ih _ ?_
            cases hp : rev.parsed with
            | none => simpa [applyReview, hp] using h
            | some items =>
                simp only [applyReview, hp]
                clear hp
                induction items generalizing agg with
                | nil => simpa [itemLoop] using h
                | cons it rest' ih' =>
                    rw [itemLoop]
                    refine ih' _ ?_
                    by_cases hit : it.proposal_id = some pid
                    · cases hq : it.proposal_id with
                      | none => simpa [applyItem, hq] using h
                      | some q =>
                          rw [hq] at hit
                          have : q = pid := by injection hit
                          subst this
                          simp [applyItem, hq, h]
                    · rw [applyItem_get_other agg it pid hit]
                      exact h
      rw [aggregateReviews]
      exact hkeep reviews _ hinit
  · intro scores
    constructor
    · intro h
      by_cases he : scores.isEmpty
      · exact List.isEmpty_iff.mp he
      · simp [avgCell, he] at h
    · intro h
      subst h
      rfl
  · intro scores h
    have he : scores.isEmpty = false := by
      cases scores with
      | nil => exact absurd rfl h
      | cons a rest => rfl
    simp [avgCell, he]

/-! ## Deep-merge characterization (claim C5) -/

theorem alistGet_eq_none_of_not_mem_keys {β : Type} (l : List (String × β)) (k : String)
    (h : k ∉ l.map Prod.fst) : alistGet l k = none := by
  induction l with
  | nil => rfl
  | cons hd tl ih =>
      obtain ⟨k₀, v₀⟩ := hd
      simp only [List.map_cons, List.mem_cons] at h
      push_neg at h
      have hne : ¬ k₀ = k := fun hc => h.1 hc.symm
      simp only [alistGet, if_neg hne]
      exact ih h.2

/-- Single-pass reading of `_deep_merge` when the update keys are distinct:
a key absent from the update keeps its base value; a key whose update value
and base value are both dicts gets the recursive merge; every other key is
overwritten wholesale. -/
theorem deepMerge_get (u : JObj) (hk : (u.map Prod.fst).Nodup) (b : JObj) (k : String) :
    alistGet (deepMerge b u) k =
      match alistGet u k with
      | none => alistGet b k
      | some (jObj uf) =>
          (match alistGet b k with
           | some (jObj bf) => some (jObj (deepMerge bf uf))
           | _ => some (jObj uf))
      | some v => some v := by
  induction u generalizing b with
  | nil => simp [deepMerge, alistGet]
  | cons hd rest ih =>
      obtain ⟨k₀, v₀⟩ := hd
      simp only [List.map_cons, List.nodup_cons] at hk
      have hrest := ih hk.2
      have hrget : alistGet rest k₀ = none :=
        alistGet_eq_none_of_not_mem_keys rest k₀ hk.1
      by_cases hkk : k₀ = k
      · subst hkk
        cases v₀ with
        | jObj uf =>
            cases hb : alistGet b k₀ with
            | none =>
                rw [deepMerge, hb, hrest _, alistGet_alistSet_self]
                simp [alistGet, hrget, hb]
                all_goals intro z h
                all_goals first
                  | exact JVal.noConfusion h
                  | exact Option.noConfusion h
            | some bv =>
                cases bv
                all_goals rw [deepMerge, hb, hrest _, alistGet_alistSet_self]
                all_goals try simp [alistGet, hrget, hb]
                all_goals try intro z h
                all_goals first
                  | exact JVal.noConfusion h
                  | exact Option.noConfusion h
        | jNull =>
            rw [deepMerge, hrest _, alistGet_alistSet_self]
            simp [alistGet, hrget]
            all_goals intro z h
            all_goals exact JVal.noConfusion h
        | jBool b₀ =>
            rw [deepMerge, hrest _, alistGet_alistSet_self]
            simp [alistGet, hrget]
            all_goals intro z h
            all_goals exact JVal.noConfusion h
        | jNum n₀ =>
            rw [deepMerge, hrest _, alistGet_alistSet_self]
            simp [alistGet, hrget]
            all_goals intro z h
            all_goals exact JVal.noConfusion h
        | jStr s₀ =>
            rw [deepMerge, hrest _, alistGet_alistSet_self]
            simp [alistGet, hrget]
            all_goals intro z h
            all_goals exact JVal.noConfusion h
        | jArr xs₀ =>
            rw [deepMerge, hrest _, alistGet_alistSet_self]
            simp [alistGet, hrget]
            all_goals intro z h
            all_goals exact JVal.noConfusion h
      · have hset : ∀ w, alistGet (alistSet b k₀ w) k = alistGet b k :=
          fun w => alistGet_alistSet_ne b k₀ k w hkk
        cases v₀ with
        | jObj uf =>
            cases hb : alistGet b k₀ with
            | none =>
                rw [deepMerge, hb, hrest _, hset]
                simp [alistGet, hkk]
                all_goals intro z h
                all_goals first
                  | exact JVal.noConfusion h
                  | exact Option.noConfusion h
            | some bv =>
                cases bv
                all_goals rw [deepMerge, hb, hrest _, hset]
                all_goals try simp [alistGet, hkk]
                all_goals try intro z h
                all_goals first
                  | exact JVal.noConfusion h
                  | exact Option.noConfusion h
        | jNull =>
            rw [deepMerge, hrest _, hset]
            simp [alistGet, hkk]
            all_goals intro z h
            all_goals exact JVal.noConfusion h
        | jBool b₀ =>
            rw [deepMerge, hrest _, hset]
            simp [alistGet, hkk]
            all_goals intro z h
            all_goals exact JVal.noConfusion h
        | jNum n₀ =>
            rw [deepMerge, hrest _, hset]
            simp [alistGet, hkk]
            all_goals intro z h
            all_goals exact JVal.noConfusion h
        | jStr s₀ =>
            rw [deepMerge, hrest _, hset]
            simp [alistGet, hkk]
            all_goals intro z h
            all_goals exact JVal.noConfusion h
        | jArr xs₀ =>
            rw [deepMerge, hrest _, hset]
            simp [alistGet, hkk]
            all_goals intro z h
            all_goals exact JVal.noConfusion h

/-- C5: `_deep_merge` (as used by `update_state`) merges nested map-valued
fields key-by-key recursively and replaces every other value type, lists
included, wholesale: on a base state without key `a`, applying
`{"a": {"x": 1}}` then `{"a": {"y": 2}}` yields `a == {"x": 1, "y": 2}`,
while applying `{"a": [1, 2]}` then `{"a": [3]}` yields `a == [3]`. -/
theorem deep_merge_update_semantics (base : JObj) (hbase : alistGet base "a" = none) :
    (∀ b u : JObj, ∀ k : String, (u.map Prod.fst).Nodup →
      alistGet (deepMerge b u) k =
        match alistGet u k with
        | none => alistGet b k
        | some (jObj uf) =>
            (match alistGet b k with
             | some (jObj bf) => some (jObj (deepMerge bf uf))
             | _ => some (jObj uf))
        | some v => some v) ∧
    alistGet (deepMerge (deepMerge base [("a", jObj [("x", jNum 1)])])
        [("a", jObj [("y", jNum 2)])]) "a" =
      some (jObj [("x", jNum 1), ("y", jNum 2)]) ∧
    alistGet (deepMerge (deepMerge base [("a", jArr [jNum 1, jNum 2])])
        [("a", jArr [jNum 3])]) "a" = some (jArr [jNum 3]) := by
  refine ⟨fun b u k hu => deepMerge_get u hu b k, ?_, ?_⟩
  · have h1 : alistGet (deepMerge base [("a", jObj [("x", jNum 1)])]) "a" =
        some (jObj [("x", jNum 1)]) := by
      rw [deepMerge_get _ (by simp) base "a"]
      simp [alistGet, hbase]
    have hsmall : deepMerge [("x", jNum 1)] [("y", jNum 2)] =
        [("x", jNum 1), ("y", jNum 2)] := by
      simp [deepMerge, alistGet, alistSet]
    rw [deepMerge_get _ (by simp) _ "a"]
    simp [alistGet, h1, hsmall]
  · rw [deepMerge_get _ (by simp) _ "a"]
    have h1 : alistGet (deepMerge base [("a", jArr [jNum 1, jNum 2])]) "a" =
        some (jArr [jNum 1, jNum 2]) := by
      rw [deepMerge_get _ (by simp) base "a"]
      simp [alistGet, hbase]
    simp [alistGet, h1]

/-- Closed instantiation of `deep_merge_update_semantics` on the empty base
state. -/
theorem deep_merge_update_semantics_witness :
    alistGet ([] : JObj) "a" = none ∧
    ((∀ b u : JObj, ∀ k : String, (u.map Prod.fst).Nodup →
      alistGet (deepMerge b u) k =
        match alistGet u k with
        | none => alistGet b k
        | some (jObj uf) =>
            (match alistGet b k with
             | some (jObj bf) => some (jObj (deepMerge bf uf))
             | _ => some (jObj uf))
        | some v => some v) ∧
    alistGet (deepMerge (deepMerge ([] : JObj) [("a", jObj [("x", jNum 1)])])
        [("a", jObj [("y", jNum 2)])]) "a" =
      some (jObj [("x", jNum 1), ("y", jNum 2)]) ∧
    alistGet (deepMerge (deepMerge ([] : JObj) [("a", jArr [jNum 1, jNum 2])])
        [("a", jArr [jNum 3])]) "a" = some (jArr [jNum 3])) :=
  ⟨rfl, deep_merge_update_semantics [] rfl⟩

/-! ## Session state store (`web/state_service.py`)

The `session_state` table becomes an association list from session id to
state document. `_sync_session_metadata` writes the separate `sessions`
summary table and is outside the state-document store modelled here. -/

abbrev Store := List (String × JObj)

/-- `SessionStateService.get_state`: the state document, or `None`. -/
def storeGet (s : Store) (sessionId : String) : Option JObj :=
  alistGet s sessionId

/-- `SessionStateService._persist_state`: upsert of the state row. -/
def storeSet (s : Store) (sessionId : String) (st : JObj) : Store :=
  alistSet s sessionId st

/-- The initial state document built by `init_state`. -/
def initialState (sessionId userId question createdAt : String) : JObj :=
  [("session_id", jStr sessionId), ("user_id", jStr userId),
   ("created_at", jStr createdAt), ("updated_at", jStr createdAt),
   ("current_step", jStr "input"), ("question", jStr question),
   ("context_files", jArr []), ("ingested_data", jArr []),
   ("council_config", jNull), ("execution_results", jNull),
   ("peer_reviews", jNull), ("aggregated_scores", jNull),
   ("chairman_verdict", jNull), ("execution_status", jObj []),
   ("review_status", jObj []), ("tokens", jObj []),
   ("log_file", jNull), ("execution_error", jNull), ("review_error", jNull)]

/-- `SessionStateService.init_state`: persist and return the fresh document. -/
def initState (store : Store) (sessionId userId question createdAt : String) :
    Store × JObj :=
  let st := initialState sessionId userId question createdAt
  (storeSet store sessionId st, st)

/-- The `_do_update` body of `SessionStateService.update_state`: read the
current document, raise `ValueError` naming the session when it is absent,
else deep-merge the updates, stamp `updated_at`, and persist. -/
def updateState (store : Store) (sessionId : String) (updates : JObj) (now : String) :
    Except String (Store × JObj) :=
  match storeGet store sessionId with
  | none => .error ("Session " ++ sessionId ++ " not found")
  | some current =>
      let merged := alistSet (deepMerge current updates) "updated_at" (jStr now)
      .ok (storeSet store sessionId merged, merged)

/-! ## Lock retry (`_retry_on_lock`) and the batched flush -/

/-- Outcome of one database attempt: success is carried by `Except.ok`;
`locked` is an `OperationalError` whose text contains "database is locked",
`otherOp` any other `OperationalError` (re-raised as is). -/
inductive DbErr : Type where
  | locked : DbErr
  | otherOp : String → DbErr
deriving DecidableEq, Repr

/-- Errors surfaced by the store: the dedicated busy error raised after the
retry ceiling, or a re-raised operational error. -/
inductive StoreErr : Type where
  | databaseBusy : StoreErr
  | opError : String → StoreErr
deriving DecidableEq, Repr

/-- `max_attempts=20` of `_retry_on_lock`. -/
def maxAttempts : Nat := 20

/-- `base_delay=0.5` of `_retry_on_lock`. -/
def baseDelay : ℚ := 1 / 2

/-- The sleep taken after locked attempt number `attempt` (0-based):
`min(base_delay * 1.8 ** attempt, 5.0)`. -/
def lockDelay (attempt : Nat) : ℚ :=
  min (baseDelay * (9 / 5) ^ attempt) 5

/-- The `for attempt in range(max_attempts)` loop over the listed attempt
outcomes: first success returns, a locked error moves to the next attempt,
any other operational error is re-raised, and exhausting the list raises
`DatabaseBusyError`. -/
def runRetry {α : Type} : List (Except DbErr α) → Except StoreErr α
  | [] => .error .databaseBusy
  | (.ok v) :: _ => .ok v
  | (.error .locked) :: rest => runRetry rest
  | (.error (.otherOp m)) :: _ => .error (.opError m)

/-- `SessionStateService._retry_on_lock(func)` where `outcomes i` is what
the wrapped call does on its i-th execution. `update_state` runs its
`_do_update` under exactly this wrapper. -/
def retryOnLock {α : Type} (outcomes : Nat → Except DbErr α) : Except StoreErr α :=
  runRetry ((List.range maxAttempts).map outcomes)

/-- What `_flush_pending` can leave behind. It never re-raises: both the
first attempt and the fallback retry are wrapped in bare `except` blocks
that only log. -/
inductive FlushResult : Type where
  | nothingPending : FlushResult
  | flushed : JObj → FlushResult
  | droppedAfterRetry : StoreErr → StoreErr → FlushResult

/-- `SessionStateService._flush_pending` after the sleep: pop the pending
updates (nothing to do when absent or empty), try `update_state` once, and
on any exception log and try once more; a second exception is logged and
the update is dropped. -/
def flushPending (pending : Option JObj)
    (attempt1 attempt2 : Except StoreErr JObj) : FlushResult :=
  match pending with
  | none => .nothingPending
  | some u =>
      if u.isEmpty then .nothingPending
      else
        match attempt1 with
        | .ok st => .flushed st
        | .error e1 =>
            match attempt2 with
            | .ok st => .flushed st
            | .error e2 => .droppedAfterRetry e1 e2

/-! ## Pipeline endpoints (`web/api.py`)

Each endpoint is modelled from the point where the session state document
was read and authorization passed; `write_state_primary` is the store's
deep-merge update, so an endpoint maps the current document and inputs to
an HTTP-level result plus the document produced by its merges. The
external builder/synthesizer calls are parameters (`newConfig`,
`newVerdict`), as are the token totals read off the logger. -/

/-- An `HTTPException`: status code and detail string. -/
structure ApiError where
  statusCode : Nat
  detail : String
deriving DecidableEq, Repr

/-- The stale-data clear written by `build_council` under `force`. -/
def buildClears : JObj :=
  [("execution_results", jNull), ("execution_status", jObj []),
   ("execution_error", jNull), ("peer_reviews", jNull),
   ("aggregated_scores", jNull), ("review_status", jObj []),
   ("review_error", jNull), ("chairman_verdict", jNull),
   ("status", jStr "build_in_progress"), ("current_step", jStr "build")]

/-- `build_council` (state already read): missing question is a 400;
an existing config without `force` is returned as is with no write; under
`force` the downstream data is cleared before the build, and the new
config is merged in on completion. -/
def buildCouncil (state : JObj) (force : Bool) (newConfig : JVal) (tokens : JVal) :
    Except ApiError (JVal × JObj) :=
  if truthyOpt (alistGet state "question") = false then
    .error ⟨400, "Session question is missing"⟩
  else if truthyOpt (alistGet state "council_config") && !force then
    .ok ((alistGet state "council_config").getD jNull, state)
  else
    let st1 := if force then deepMerge state buildClears else state
    .ok (newConfig,
      deepMerge st1
        [("council_config", newConfig), ("current_step", jStr "edit"),
         ("status", jStr "build_complete"), ("tokens", tokens)])

/-- The stale-data clear written by `execute_council` under `force`. -/
def executeClears : JObj :=
  [("execution_results", jNull), ("execution_status", jObj []),
   ("execution_error", jNull), ("peer_reviews", jNull),
   ("aggregated_scores", jNull), ("review_status", jObj []),
   ("review_error", jNull), ("chairman_verdict", jNull)]

/-- `execute_council` endpoint up to accepting the background task:
requires a council config; with existing results and no `force` it answers
`already_executed` without writing; with `force` and existing results it
clears downstream data, then marks the session as executing. -/
def executeEndpoint (state : JObj) (force : Bool) : Except ApiError (String × JObj) :=
  if truthyOpt (alistGet state "council_config") = false then
    .error ⟨400, "Council configuration is required before execution. Please complete the Build step first."⟩
  else if truthyOpt (alistGet state "execution_results") && !force then
    .ok ("already_executed", state)
  else
    let st1 :=
      if force && truthyOpt (alistGet state "execution_results") then
        deepMerge state executeClears
      else state
    .ok ("accepted",
      deepMerge st1 [("status", jStr "executing"), ("current_step", jStr "execute")])

/-- The stale-data clear written by `peer_review` under `force`. -/
def reviewClears : JObj :=
  [("peer_reviews", jNull), ("aggregated_scores", jNull),
   ("review_status", jObj []), ("review_error", jNull),
   ("chairman_verdict", jNull)]

/-- `peer_review` endpoint up to accepting the background task: the only
data precondition is a truthy `execution_results` entry — the statuses of
the individual proposals inside it are never consulted. -/
def peerReviewEndpoint (state : JObj) (force : Bool) : Except ApiError (String × JObj) :=
  if truthyOpt (alistGet state "execution_results") = false then
    .error ⟨400, "Execution results are required before peer review. Please complete the Execute step first."⟩
  else if truthyOpt (alistGet state "peer_reviews") && !force then
    .ok ("already_reviewed", state)
  else
    let st1 :=
      if force && truthyOpt (alistGet state "peer_reviews") then
        deepMerge state reviewClears
      else state
    .ok ("accepted",
      deepMerge st1 [("status", jStr "reviewing"), ("current_step", jStr "review")])

/-- `synthesize` endpoint: precondition 400s, the cached-verdict early
return, and otherwise the external synthesis (`newVerdict`) merged into the
state. The reads `state["question"]` and
`state["execution_results"]["execution_results"]` happen before the write;
a missing key raises and surfaces as a 500 with the exception text. -/
def synthesizeEndpoint (state : JObj) (force : Bool) (newVerdict : String) (tokens : JVal) :
    Except ApiError (JVal × JObj) :=
  if truthyOpt (alistGet state "execution_results") = false then
    .error ⟨400, "Execution results are required. Please complete the Execute step first."⟩
  else if truthyOpt (alistGet state "peer_reviews") = false then
    .error ⟨400, "Peer reviews are required. Please complete the Review step first."⟩
  else if truthyOpt (alistGet state "chairman_verdict") && !force then
    .ok ((alistGet state "chairman_verdict").getD jNull, state)
  else
    match alistGet state "question",
        (alistGet state "execution_results").bind
          (fun er => match er with
            | jObj fs => alistGet fs "execution_results"
            | _ => none) with
    | some _, some _ =>
        .ok (jStr newVerdict,
          deepMerge state
            [("chairman_verdict", jStr newVerdict), ("current_step", jStr "complete"),
             ("status", jStr "verdict_complete"), ("tokens", tokens)])
    | _, _ => .error ⟨500, "key lookup failed"⟩

/-! ## Claims C9 and C10 -/

/-- C10: updating an unknown session raises a `ValueError` naming the
session and persists nothing; a successful update requires the document to
exist already, touches no other session, and never creates a document —
creation happens only in `init_state`. -/
theorem update_state_missing_session (store : Store) (sid : String)
    (updates : JObj) (now : String) (h : storeGet store sid = none) :
    updateState store sid updates now = .error ("Session " ++ sid ++ " not found") ∧
    (∀ sid' u' n' store' merged, updateState store sid' u' n' = .ok (store', merged) →
      storeGet store sid' ≠ none ∧
      (∀ s, s ≠ sid' → storeGet store' s = storeGet store s) ∧
      (∀ s, storeGet store s = none → storeGet store' s = none)) ∧
    (∀ st0 sid2 uid q ts, storeGet (initState st0 sid2 uid q ts).1 sid2 =
      some (initialState sid2 uid q ts)) := by
  refine ⟨by simp [updateState, h], ?_, ?_⟩
  · intro sid' u' n' store' merged hok
    cases hcur : storeGet store sid' with
    | none => simp [updateState, hcur] at hok
    | some current =>
        simp only [updateState, hcur, Except.ok.injEq, Prod.mk.injEq] at hok
        obtain ⟨hst, _⟩ := hok
        refine ⟨by simp [hcur], ?_, ?_⟩
        · intro s hs
          rw [← hst]
          exact alistGet_alistSet_ne store sid' s _ (fun hc => hs hc.symm)
        · intro s hnone
          by_cases hssid : s = sid'
          · rw [hssid, hcur] at hnone
            cases hnone
          · rw [← hst]
            rw [storeGet, storeSet, alistGet_alistSet_ne store sid' s _
              (fun hc => hssid hc.symm)]
            exact hnone
  · intro st0 sid2 uid q ts
    exact alistGet_alistSet_self st0 sid2 _

/-- Closed instantiation of `update_state_missing_session`: a store holding
only session `s1`, updated under the unknown id `s2`. -/
theorem update_state_missing_session_witness :
    storeGet [("s1", initialState "s1" "u" "q" "t0")] "s2" = none ∧
    (updateState [("s1", initialState "s1" "u" "q" "t0")] "s2"
        [("status", jStr "executing")] "t1" =
      .error ("Session " ++ "s2" ++ " not found") ∧
    (∀ sid' u' n' store' merged,
      updateState [("s1", initialState "s1" "u" "q" "t0")] sid' u' n' =
        .ok (store', merged) →
      storeGet [("s1", initialState "s1" "u" "q" "t0")] sid' ≠ none ∧
      (∀ s, s ≠ sid' → storeGet store' s =
        storeGet [("s1", initialState "s1" "u" "q" "t0")] s) ∧
      (∀ s, storeGet [("s1", initialState "s1" "u" "q" "t0")] s = none →
        storeGet store' s = none)) ∧
    (∀ st0 sid2 uid q ts, storeGet (initState st0 sid2 uid q ts).1 sid2 =
      some (initialState sid2 uid q ts))) :=
  ⟨rfl, update_state_missing_session [("s1", initialState "s1" "u" "q" "t0")]
    "s2" [("status", jStr "executing")] "t1" rfl⟩

/-- C9 counterexample: exhausting the retry ceiling does raise the
dedicated busy error on the direct `update_state` path, but on the batched
progress path `_flush_pending` catches it, retries the whole flush once,
and on a second busy failure only logs and drops the update — nothing is
raised on that path. -/
theorem store_busy_flush_dropped_cex :
    retryOnLock (fun _ => (.error .locked : Except DbErr (Store × JObj))) =
      .error .databaseBusy ∧
    flushPending (some [("review_status", jObj [("A", jStr "Done")])])
      (.error .databaseBusy) (.error .databaseBusy) =
      .droppedAfterRetry .databaseBusy .databaseBusy :=
  ⟨rfl, rfl⟩

theorem runRetry_all_locked {α : Type} (l : List (Except DbErr α))
    (h : ∀ x ∈ l, x = .error .locked) : runRetry l = .error .databaseBusy := by
  induction l with
  | nil => rfl
  | cons x rest ih =>
      rw [h x (List.mem_cons_self x rest)]
      exact ih (fun y hy => h y (List.mem_cons_of_mem x hy))

/-- C9 amended: `_retry_on_lock` sleeps `min(0.5 * 1.8^attempt, 5.0)`
between locked attempts — an exponential backoff, monotone and capped at 5
seconds — for a fixed ceiling of 20 attempts, and raises the dedicated
`DatabaseBusyError` when every attempt is locked. The batched
progress-update path, however, catches that error in `_flush_pending`,
retries the flush once and then drops the update with only a log line;
the busy error is raised on the direct update paths only. -/
theorem store_retry_amended :
    (∀ i : Nat, lockDelay i ≤ 5) ∧
    (∀ i : Nat, lockDelay (i + 1) = min (lockDelay i * (9 / 5)) 5) ∧
    (∀ i j : Nat, i ≤ j → lockDelay i ≤ lockDelay j) ∧
    maxAttempts = 20 ∧
    (∀ (α : Type) (outcomes : Nat → Except DbErr α),
      (∀ i, outcomes i = .error .locked) →
      retryOnLock outcomes = .error .databaseBusy) ∧
    (∀ (u : JObj) (e1 e2 : StoreErr), u.isEmpty = false →
      flushPending (some u) (.error e1) (.error e2) = .droppedAfterRetry e1 e2) := by
  have hr1 : (1 : ℚ) ≤ 9 / 5 := by norm_num
  have hbpos : ∀ i : Nat, (0 : ℚ) ≤ baseDelay * (9 / 5) ^ i := by
    intro i
    have := pow_nonneg (by norm_num : (0 : ℚ) ≤ 9 / 5) i
    have hb : (0 : ℚ) ≤ baseDelay := by norm_num [baseDelay]
    positivity
  refine ⟨fun i => min_le_right _ _, ?_, ?_, rfl, ?_, ?_⟩
  · intro i
    rw [lockDelay, lockDelay, pow_succ]
    rcases le_total (baseDelay * (9 / 5) ^ i) 5 with hA | hB
    · rw [min_eq_left hA, mul_assoc]
    · rw [min_eq_right hB]
      have h1 : (5 : ℚ) ≤ baseDelay * ((9 / 5) ^ i * (9 / 5)) := by nlinarith
      have h2 : (5 : ℚ) ≤ 5 * (9 / 5) := by norm_num
      rw [min_eq_right h1, min_eq_right h2]
  · intro i j hij
    rw [lockDelay, lockDelay]
    refine min_le_min ?_ le_rfl
    have : ((9 : ℚ) / 5) ^ i ≤ (9 / 5) ^ j := pow_le_pow_right hr1 hij
    have hb : (0 : ℚ) ≤ baseDelay := by norm_num [baseDelay]
    exact mul_le_mul_of_nonneg_left this hb
  · intro α outcomes h
    refine runRetry_all_locked _ ?_
    intro x hx
    rcases List.mem_map.mp hx with ⟨i, _, rfl⟩
    exact h i
  · intro u e1 e2 hu
    simp [flushPending, hu]

/-! ## Claims C6, C7, C8 -/

/-- C6: the synthesizer endpoint is idempotent — when a verdict is already
stored and `force` is not set, the cached verdict is returned and the state
document is left untouched; with `force`, the freshly computed verdict is
merged in and overwrites the stored one. -/
theorem synthesize_idempotent (state : JObj) (v v' : String) (tokens : JVal)
    (hexec : truthyOpt (alistGet state "execution_results") = true)
    (hrev : truthyOpt (alistGet state "peer_reviews") = true)
    (hverd : truthyOpt (alistGet state "chairman_verdict") = true) :
    synthesizeEndpoint state false v tokens =
      .ok ((alistGet state "chairman_verdict").getD jNull, state) ∧
    ((alistGet state "question").isSome = true →
      ∀ fs, alistGet state "execution_results" = some (jObj fs) →
      (alistGet fs "execution_results").isSome = true →
      ∃ st', synthesizeEndpoint state true v' tokens = .ok (jStr v', st') ∧
        alistGet st' "chairman_verdict" = some (jStr v') ∧
        alistGet st' "question" = alistGet state "question") := by
  constructor
  · simp [synthesizeEndpoint, hexec, hrev, hverd]
  · intro hq fs hfs hinner
    cases hqv : alistGet state "question" with
    | none => rw [hqv] at hq; cases hq
    | some q =>
        cases hiv : alistGet fs "execution_results" with
        | none => rw [hiv] at hinner; cases hinner
        | some inner =>
            have hexec2 : truthyOpt (some (jObj fs)) = true := by
              rw [← hfs]
              exact hexec
            refine ⟨deepMerge state
              [("chairman_verdict", jStr v'), ("current_step", jStr "complete"),
               ("status", jStr "verdict_complete"), ("tokens", tokens)], ?_, ?_, ?_⟩
            · simp [synthesizeEndpoint, hexec2, hrev, hqv, hfs, hiv]
            · rw [deepMerge_get _ (by simp) state "chairman_verdict"]
              simp [alistGet]
            · rw [deepMerge_get _ (by simp) state "question"]
              simp [alistGet, hqv]

/-- Session state with all stages complete, used to instantiate the
endpoint claims. -/
def cexFullState : JObj :=
  [("question", jStr "q"), ("ingested_data", jArr [jStr "doc.txt"]),
   ("council_config", jObj [("agents", jArr [jObj [("name", jStr "A")]])]),
   ("execution_results", jObj [("execution_results", jArr
     [jObj [("agent_name", jStr "A"), ("status", jStr "success"),
            ("proposal_id", jNum 1)]])]),
   ("peer_reviews", jArr [jObj [("reviewer", jStr "A")]]),
   ("aggregated_scores", jObj [("one", jObj [])]),
   ("chairman_verdict", jStr "the verdict")]

/-- Closed instantiation of `synthesize_idempotent` on `cexFullState`. -/
theorem synthesize_idempotent_witness :
    truthyOpt (alistGet cexFullState "execution_results") = true ∧
    truthyOpt (alistGet cexFullState "peer_reviews") = true ∧
    truthyOpt (alistGet cexFullState "chairman_verdict") = true ∧
    (synthesizeEndpoint cexFullState false "v0" (jObj []) =
      .ok ((alistGet cexFullState "chairman_verdict").getD jNull, cexFullState) ∧
    ((alistGet cexFullState "question").isSome = true →
      ∀ fs, alistGet cexFullState "execution_results" = some (jObj fs) →
      (alistGet fs "execution_results").isSome = true →
      ∃ st', synthesizeEndpoint cexFullState true "v1" (jObj []) = .ok (jStr "v1", st') ∧
        alistGet st' "chairman_verdict" = some (jStr "v1") ∧
        alistGet st' "question" = alistGet cexFullState "question")) :=
  ⟨rfl, rfl, rfl,
    synthesize_idempotent cexFullState "v0" "v1" (jObj []) rfl rfl rfl⟩

/-- Execution results where no proposal succeeded: the single worker's
invocation failed. -/
def cexReviewState : JObj :=
  [("question", jStr "q"),
   ("council_config", jObj [("agents", jArr [jObj [("name", jStr "A")]])]),
   ("execution_results", jObj
     [("council_name", jStr "c"), ("original_question", jStr "q"),
      ("execution_results", jArr
        [jObj [("agent_name", jStr "A"), ("status", jStr "error"),
               ("proposal_id", jNum 1)]])]),
   ("peer_reviews", jNull)]

/-- C7 counterexample: a session whose execution results contain no
successful proposal (its only proposal has status `error`) is not rejected:
`peer_review` accepts the request and marks the session as reviewing. -/
theorem review_no_success_accepted_cex :
    alistGet cexReviewState "execution_results" =
      some (jObj
        [("council_name", jStr "c"), ("original_question", jStr "q"),
         ("execution_results", jArr
           [jObj [("agent_name", jStr "A"), ("status", jStr "error"),
                  ("proposal_id", jNum 1)]])]) ∧
    peerReviewEndpoint cexReviewState false =
      .ok ("accepted", deepMerge cexReviewState
        [("status", jStr "reviewing"), ("current_step", jStr "review")]) :=
  ⟨rfl, rfl⟩

/-- C7 amended: the review stage's only data precondition is a truthy
`execution_results` entry. A session with no execution results at all is
rejected with a reported 400 precondition error and no state write, but the
success status of individual proposals is never checked: any session with
truthy execution results (even all-error ones) is accepted for review. -/
theorem review_precondition_amended (state : JObj) :
    (truthyOpt (alistGet state "execution_results") = false →
      peerReviewEndpoint state false =
        .error ⟨400, "Execution results are required before peer review. Please complete the Execute step first."⟩) ∧
    (truthyOpt (alistGet state "execution_results") = true →
      truthyOpt (alistGet state "peer_reviews") = false →
      peerReviewEndpoint state false =
        .ok ("accepted", deepMerge state
          [("status", jStr "reviewing"), ("current_step", jStr "review")])) := by
  constructor
  · intro h
    simp [peerReviewEndpoint, h]
  · intro hexec hrev
    simp [peerReviewEndpoint, hexec, hrev]

/-- C8: on a session with completed downstream stages, a forced stage redo
clears all downstream derived state before re-running. Forcing `build`
nulls `execution_results`, `peer_reviews`, `aggregated_scores` and
`chairman_verdict`; forcing `execute` does the same; forcing `review` nulls
`peer_reviews`, `aggregated_scores` and `chairman_verdict` while leaving
`execution_results` alone. Earlier-stage fields — the question and the
ingested context — are never touched. -/
theorem force_clears_downstream (state : JObj) (newConfig tokens : JVal)
    (hq : truthyOpt (alistGet state "question") = true)
    (hcfg : truthyOpt (alistGet state "council_config") = true)
    (hexec : truthyOpt (alistGet state "execution_results") = true)
    (hrev : truthyOpt (alistGet state "peer_reviews") = true) :
    (∃ final, buildCouncil state true newConfig tokens = .ok (newConfig, final) ∧
      alistGet final "execution_results" = some jNull ∧
      alistGet final "peer_reviews" = some jNull ∧
      alistGet final "aggregated_scores" = some jNull ∧
      alistGet final "chairman_verdict" = some jNull ∧
      alistGet final "question" = alistGet state "question" ∧
      alistGet final "ingested_data" = alistGet state "ingested_data") ∧
    (∃ final, executeEndpoint state true = .ok ("accepted", final) ∧
      alistGet final "execution_results" = some jNull ∧
      alistGet final "peer_reviews" = some jNull ∧
      alistGet final "aggregated_scores" = some jNull ∧
      alistGet final "chairman_verdict" = some jNull ∧
      alistGet final "question" = alistGet state "question" ∧
      alistGet final "ingested_data" = alistGet state "ingested_data") ∧
    (∃ final, peerReviewEndpoint state true = .ok ("accepted", final) ∧
      alistGet final "peer_reviews" = some jNull ∧
      alistGet final "aggregated_scores" = some jNull ∧
      alistGet final "chairman_verdict" = some jNull ∧
      alistGet final "execution_results" = alistGet state "execution_results" ∧
      alistGet final "question" = alistGet state "question" ∧
      alistGet final "ingested_data" = alistGet state "ingested_data") := by
  have hclears : ∀ k : String,
      alistGet (deepMerge state buildClears) k =
        match alistGet buildClears k with
        | none => alistGet state k
        | some (jObj uf) =>
            (match alistGet state k with
             | some (jObj bf) => some (jObj (deepMerge bf uf))
             | _ => some (jObj uf))
        | some v => some v :=
    fun k => deepMerge_get buildClears (by simp [buildClears]) state k
  have hexecClears : ∀ k : String,
      alistGet (deepMerge state executeClears) k =
        match alistGet executeClears k with
        | none => alistGet state k
        | some (jObj uf) =>
            (match alistGet state k with
             | some (jObj bf) => some (jObj (deepMerge bf uf))
             | _ => some (jObj uf))
        | some v => some v :=
    fun k => deepMerge_get executeClears (by simp [executeClears]) state k
  have hrevClears : ∀ k : String,
      alistGet (deepMerge state reviewClears) k =
        match alistGet reviewClears k with
        | none => alistGet state k
        | some (jObj uf) =>
            (match alistGet state k with
             | some (jObj bf) => some (jObj (deepMerge bf uf))
             | _ => some (jObj uf))
        | some v => some v :=
    fun k => deepMerge_get reviewClears (by simp [reviewClears]) state k
  refine ⟨?_, ?_, ?_⟩
  · refine ⟨deepMerge (deepMerge state buildClears)
      [("council_config", newConfig), ("current_step", jStr "edit"),
       ("status", jStr "build_complete"), ("tokens", tokens)], ?_, ?_, ?_, ?_, ?_, ?_, ?_⟩
    · simp [buildCouncil, hq]
    all_goals rw [deepMerge_get _ (by simp) _ _]
    all_goals simp [alistGet]
    all_goals rw [hclears _]
    all_goals simp [alistGet, buildClears]
  · refine ⟨deepMerge (deepMerge state executeClears)
      [("status", jStr "executing"), ("current_step", jStr "execute")],
      ?_, ?_, ?_, ?_, ?_, ?_, ?_⟩
    · simp [executeEndpoint, hcfg, hexec]
    all_goals rw [deepMerge_get _ (by simp) _ _]
    all_goals simp [alistGet]
    all_goals rw [hexecClears _]
    all_goals simp [alistGet, executeClears]
  · refine ⟨deepMerge (deepMerge state reviewClears)
      [("status", jStr "reviewing"), ("current_step", jStr "review")],
      ?_, ?_, ?_, ?_, ?_, ?_, ?_⟩
    · simp [peerReviewEndpoint, hexec, hrev]
    all_goals rw [deepMerge_get _ (by simp) _ _]
    all_goals simp [alistGet]
    all_goals rw [hrevClears _]
    all_goals simp [alistGet, reviewClears]

/-- Closed instantiation of `force_clears_downstream` on `cexFullState`. -/
theorem force_clears_downstream_witness :
    truthyOpt (alistGet cexFullState "question") = true ∧
    truthyOpt (alistGet cexFullState "council_config") = true ∧
    truthyOpt (alistGet cexFullState "execution_results") = true ∧
    truthyOpt (alistGet cexFullState "peer_reviews") = true ∧
    ((∃ final, buildCouncil cexFullState true (jObj []) (jObj []) =
        .ok (jObj [], final) ∧
      alistGet final "execution_results" = some jNull ∧
      alistGet final "peer_reviews" = some jNull ∧
      alistGet final "aggregated_scores" = some jNull ∧
      alistGet final "chairman_verdict" = some jNull ∧
      alistGet final "question" = alistGet cexFullState "question" ∧
      alistGet final "ingested_data" = alistGet cexFullState "ingested_data") ∧
    (∃ final, executeEndpoint cexFullState true = .ok ("accepted", final) ∧
      alistGet final "execution_results" = some jNull ∧
      alistGet final "peer_reviews" = some jNull ∧
      alistGet final "aggregated_scores" = some jNull ∧
      alistGet final "chairman_verdict" = some jNull ∧
      alistGet final "question" = alistGet cexFullState "question" ∧
      alistGet final "ingested_data" = alistGet cexFullState "ingested_data") ∧
    (∃ final, peerReviewEndpoint cexFullState true = .ok ("accepted", final) ∧
      alistGet final "peer_reviews" = some jNull ∧
      alistGet final "aggregated_scores" = some jNull ∧
      alistGet final "chairman_verdict" = some jNull ∧
      alistGet final "execution_results" = alistGet cexFullState "execution_results" ∧
      alistGet final "question" = alistGet cexFullState "question" ∧
      alistGet final "ingested_data" = alistGet cexFullState "ingested_data")) :=
  ⟨rfl, rfl, rfl, rfl,
    force_clears_downstream cexFullState (jObj []) (jObj []) rfl rfl rfl rfl⟩

end AgentCouncil
